import Mathlib

/-!
Shallow embedding of the Kepler MILP sidecar solver
(src/experimental/rust_solver/src/main.rs).

The embedding covers the domain model, the decision-variable space, the
constraint set and objective assembled by `solve_kepler`, and the result
extraction.  Timestamps are UTC seconds since the epoch (integers, the
`DateTime<Utc>` values of the source); machine reals are embedded as
rationals.  The external MILP solver is an oracle parameter: it receives
the assembled objective and constraint list and returns either an
assignment of rationals to every variable or an error string.
-/

/-- Configuration record, field for field as in the source. -/
structure KeplerConfig where
  capacity_kwh : ℚ
  min_soc_percent : ℚ
  max_soc_percent : ℚ
  max_charge_power_kw : ℚ
  max_discharge_power_kw : ℚ
  charge_efficiency : ℚ
  discharge_efficiency : ℚ
  wear_cost_sek_per_kwh : ℚ
  max_export_power_kw : Option ℚ
  max_import_power_kw : Option ℚ
  target_soc_kwh : Option ℚ
  target_soc_penalty_sek : ℚ
  terminal_value_sek_kwh : ℚ
  ramping_cost_sek_per_kw : ℚ
  export_threshold_sek_per_kwh : ℚ
  grid_import_limit_kw : Option ℚ
  water_heating_power_kw : ℚ
  water_heating_min_kwh : ℚ
  water_heating_max_gap_hours : ℚ
  water_heated_today_kwh : ℚ
  water_comfort_penalty_sek : ℚ
  water_min_spacing_hours : ℚ
  water_spacing_penalty_sek : ℚ
  force_water_on_slots : Option (List ℕ)
  water_block_start_penalty_sek : ℚ
  defer_up_to_hours : ℚ
  enable_export : Bool
  deriving DecidableEq

/-- One forecast slot; times are UTC seconds since the epoch. -/
structure KeplerInputSlot where
  start_time : ℤ
  end_time : ℤ
  load_kwh : ℚ
  pv_kwh : ℚ
  import_price_sek_kwh : ℚ
  export_price_sek_kwh : ℚ
  deriving DecidableEq

structure KeplerInput where
  slots : List KeplerInputSlot
  initial_soc_kwh : ℚ
  deriving DecidableEq

structure SidecarInput where
  input : KeplerInput
  config : KeplerConfig
  deriving DecidableEq

structure KeplerResultSlot where
  start_time : ℤ
  end_time : ℤ
  charge_kwh : ℚ
  discharge_kwh : ℚ
  grid_import_kwh : ℚ
  grid_export_kwh : ℚ
  soc_kwh : ℚ
  cost_sek : ℚ
  import_price_sek_kwh : ℚ
  export_price_sek_kwh : ℚ
  water_heat_kw : ℚ
  terminal_credit_sek : ℚ
  deriving DecidableEq

structure KeplerResult where
  slots : List KeplerResultSlot
  total_cost_sek : ℚ
  is_optimal : Bool
  status_msg : String
  solve_time_ms : ℚ
  deriving DecidableEq

/-- The decision and slack variables allocated by `solve_kepler`, indexed by
slot (or slot boundary, for `soc` and `socViolation`). -/
inductive Var where
  | gridImport : ℕ → Var
  | gridExport : ℕ → Var
  | charge : ℕ → Var
  | discharge : ℕ → Var
  | curtailment : ℕ → Var
  | loadShedding : ℕ → Var
  | importBreach : ℕ → Var
  | rampUp : ℕ → Var
  | rampDown : ℕ → Var
  | waterHeat : ℕ → Var
  | waterStart : ℕ → Var
  | gapViolation : ℕ → Var
  | gapViolation2 : ℕ → Var
  | soc : ℕ → Var
  | socViolation : ℕ → Var
  | targetUnder : Var
  | targetOver : Var
  deriving DecidableEq

/-- An affine expression: a list of coefficient-variable terms plus a
constant, mirroring `good_lp::Expression`. -/
structure LinExpr where
  terms : List (ℚ × Var)
  const : ℚ
  deriving DecidableEq

def exprVar (v : Var) : LinExpr := ⟨[(1, v)], 0⟩

def exprConst (q : ℚ) : LinExpr := ⟨[], q⟩

def exprAdd (a b : LinExpr) : LinExpr := ⟨a.terms ++ b.terms, a.const + b.const⟩

def exprSmul (q : ℚ) (a : LinExpr) : LinExpr :=
  ⟨a.terms.map (fun p => (q * p.1, p.2)), q * a.const⟩

def exprSub (a b : LinExpr) : LinExpr := exprAdd a (exprSmul (-1) b)

/-- Sum of variables, as produced by summing an iterator of variables. -/
def exprSumVars (vs : List Var) : LinExpr := ⟨vs.map (fun v => ((1 : ℚ), v)), 0⟩

def evalTerms (σ : Var → ℚ) : List (ℚ × Var) → ℚ
  | [] => 0
  | p :: rest => p.1 * σ p.2 + evalTerms σ rest

def evalExpr (σ : Var → ℚ) (e : LinExpr) : ℚ := evalTerms σ e.terms + e.const

def coeffTerms (v : Var) : List (ℚ × Var) → ℚ
  | [] => 0
  | p :: rest => (if p.2 = v then p.1 else 0) + coeffTerms v rest

/-- The coefficient of a variable in an expression (the value the
`good_lp` term map associates to that variable). -/
def coeffOf (e : LinExpr) (v : Var) : ℚ := coeffTerms v e.terms

inductive CmpRel where
  | eq : CmpRel
  | le : CmpRel
  | ge : CmpRel
  deriving DecidableEq

/-- A linear constraint `lhs rel rhs`, as built from `lhs.op(rhs)` in
`good_lp`. -/
structure LinCon where
  lhs : LinExpr
  rel : CmpRel
  rhs : LinExpr
  deriving DecidableEq

def satisfies (σ : Var → ℚ) (c : LinCon) : Prop :=
  match c.rel with
  | CmpRel.eq => evalExpr σ c.lhs = evalExpr σ c.rhs
  | CmpRel.le => evalExpr σ c.lhs ≤ evalExpr σ c.rhs
  | CmpRel.ge => evalExpr σ c.lhs ≥ evalExpr σ c.rhs

instance (σ : Var → ℚ) (c : LinCon) : Decidable (satisfies σ c) := by
  rcases c with ⟨l, r, rh⟩
  cases r <;> (unfold satisfies; simp only []; infer_instance)

/-- Truncating float-to-usize cast of the floor of a rational
(`x as usize` in the source, for the nonnegative values it is applied to). -/
def zfloor (q : ℚ) : ℤ := q.num / (q.den : ℤ)

def zceil (q : ℚ) : ℤ := -zfloor (-q)

def floorUsize (q : ℚ) : ℕ := (zfloor q).toNat

/-- `x.ceil() as usize` in the source: mathematical ceiling, saturating
at zero. -/
def ceilUsize (q : ℚ) : ℕ := (zceil q).toNat

theorem zfloor_eq (q : ℚ) : zfloor q = ⌊q⌋ := Rat.floor_def.symm

theorem zceil_eq (q : ℚ) : zceil q = ⌈q⌉ := by
  rw [zceil, zfloor_eq, Int.floor_neg, neg_neg]

theorem floorUsize_eq (q : ℚ) : floorUsize q = ⌊q⌋₊ := by
  rw [floorUsize, zfloor_eq, Int.floor_toNat]

theorem ceilUsize_eq (q : ℚ) : ceilUsize q = ⌈q⌉₊ := by
  rw [ceilUsize, zceil_eq, Int.ceil_toNat]

/-! ## Model construction -/

def horizonT (si : SidecarInput) : ℕ := si.input.slots.length

def dummySlot : KeplerInputSlot := ⟨0, 0, 0, 0, 0, 0⟩

def slotAt (si : SidecarInput) (t : ℕ) : KeplerInputSlot :=
  si.input.slots.getD t dummySlot

/-- `(s0.end_time - s0.start_time).num_seconds() as f64 / 3600.0`. -/
def slotDurH (si : SidecarInput) : ℚ :=
  (((slotAt si 0).end_time - (slotAt si 0).start_time : ℤ) : ℚ) / 3600

/-- Hardcoded penalty constants of the formulation. -/
def min_soc_penalty : ℚ := 1000

def curtailment_penalty : ℚ := 1 / 10

def load_shedding_penalty : ℚ := 10000

def import_breach_penalty : ℚ := 5000

def min_soc_kwh (cfg : KeplerConfig) : ℚ := cfg.min_soc_percent * cfg.capacity_kwh / 100

def max_soc_kwh (cfg : KeplerConfig) : ℚ := cfg.max_soc_percent * cfg.capacity_kwh / 100

def max_charge_kwh (si : SidecarInput) : ℚ := si.config.max_charge_power_kw * slotDurH si

def max_discharge_kwh (si : SidecarInput) : ℚ := si.config.max_discharge_power_kw * slotDurH si

/-- `config.water_heating_power_kw > 0.0`. -/
def waterEnabled (cfg : KeplerConfig) : Prop := 0 < cfg.water_heating_power_kw

instance (cfg : KeplerConfig) : Decidable (waterEnabled cfg) :=
  inferInstanceAs (Decidable (0 < cfg.water_heating_power_kw))

/-- Discharge efficiency with the divide-by-zero fallback. -/
def eff_d (cfg : KeplerConfig) : ℚ :=
  if 0 < cfg.discharge_efficiency then cfg.discharge_efficiency else 1

/-- Energy balance: load + charge + export + water + curtailment ==
pv + discharge + import + shedding. -/
def energyBalanceC (si : SidecarInput) (t : ℕ) : LinCon :=
  let slot := slotAt si t
  let waterLoad :=
    if waterEnabled si.config then
      exprSmul (si.config.water_heating_power_kw * slotDurH si) (exprVar (Var.waterHeat t))
    else exprConst 0
  ⟨exprAdd (exprAdd (exprAdd (exprAdd (exprConst slot.load_kwh) (exprVar (Var.charge t)))
      (exprVar (Var.gridExport t))) waterLoad) (exprVar (Var.curtailment t)),
   CmpRel.eq,
   exprAdd (exprAdd (exprAdd (exprConst slot.pv_kwh) (exprVar (Var.discharge t)))
      (exprVar (Var.gridImport t))) (exprVar (Var.loadShedding t))⟩

/-- Battery dynamics: soc[t+1] == soc[t] + charge[t]*eta_c - discharge[t]/eff_d. -/
def batteryDynC (si : SidecarInput) (t : ℕ) : LinCon :=
  ⟨exprVar (Var.soc (t + 1)),
   CmpRel.eq,
   exprSub (exprAdd (exprVar (Var.soc t))
      (exprSmul si.config.charge_efficiency (exprVar (Var.charge t))))
     (exprSmul (1 / eff_d si.config) (exprVar (Var.discharge t)))⟩

/-- Soft minimum SoC: soc[t] >= min_soc_kwh - soc_violation[t]. -/
def softMinC (si : SidecarInput) (t : ℕ) : LinCon :=
  ⟨exprVar (Var.soc t), CmpRel.ge,
   exprSub (exprConst (min_soc_kwh si.config)) (exprVar (Var.socViolation t))⟩

/-- Hard maximum SoC: soc[t] <= max_soc_kwh. -/
def hardMaxC (si : SidecarInput) (t : ℕ) : LinCon :=
  ⟨exprVar (Var.soc t), CmpRel.le, exprConst (max_soc_kwh si.config)⟩

/-- The constraints emitted by the body of the main per-slot loop, in
source order. -/
def perSlotConstraints (si : SidecarInput) (t : ℕ) : List LinCon :=
  [energyBalanceC si t, batteryDynC si t, softMinC si t, hardMaxC si t]
  ++ (match si.config.grid_import_limit_kw with
      | some l => [⟨exprVar (Var.gridImport t), CmpRel.le,
          exprAdd (exprConst (l * slotDurH si)) (exprVar (Var.importBreach t))⟩]
      | none => [])
  ++ (match si.config.max_import_power_kw with
      | some l => [⟨exprVar (Var.gridImport t), CmpRel.le, exprConst (l * slotDurH si)⟩]
      | none => [])
  ++ (match si.config.max_export_power_kw with
      | some l => [⟨exprVar (Var.gridExport t), CmpRel.le, exprConst (l * slotDurH si)⟩]
      | none => [])
  ++ (if si.config.enable_export then []
      else [⟨exprVar (Var.gridExport t), CmpRel.eq, exprConst 0⟩])
  ++ (if t = 0 then
        [⟨exprVar (Var.rampUp t), CmpRel.eq, exprConst 0⟩,
         ⟨exprVar (Var.rampDown t), CmpRel.eq, exprConst 0⟩]
      else
        [⟨exprSub (exprSub (exprVar (Var.charge t)) (exprVar (Var.discharge t)))
            (exprSub (exprVar (Var.charge (t - 1))) (exprVar (Var.discharge (t - 1)))),
          CmpRel.eq, exprSub (exprVar (Var.rampUp t)) (exprVar (Var.rampDown t))⟩])
  ++ (if waterEnabled si.config then
        (if t = 0 then
           [⟨exprVar (Var.waterStart 0), CmpRel.eq, exprVar (Var.waterHeat 0)⟩]
         else
           [⟨exprVar (Var.waterStart t), CmpRel.ge,
             exprSub (exprVar (Var.waterHeat t)) (exprVar (Var.waterHeat (t - 1)))⟩])
        ++ (match si.config.force_water_on_slots with
            | some l =>
              if t ∈ l then [⟨exprVar (Var.waterHeat t), CmpRel.eq, exprConst 1⟩] else []
            | none => [])
      else [])

/-- Day number of a UTC timestamp (days since the epoch; order-isomorphic
to `chrono::NaiveDate`). -/
def dateOf (z : ℤ) : ℤ := Int.fdiv z 86400

/-- Hour-of-day of a UTC timestamp, `0..=23`. -/
def hourOf (z : ℤ) : ℤ := Int.ediv (Int.emod z 86400) 3600

/-- The calendar day a slot is accounted to, with the deferral shift. -/
def effDayKey (cfg : KeplerConfig) (s : KeplerInputSlot) : ℤ :=
  if 0 < cfg.defer_up_to_hours ∧ ((hourOf s.start_time : ℤ) : ℚ) < cfg.defer_up_to_hours then
    dateOf (s.start_time - 86400)
  else dateOf s.start_time

def insertOrd (x : ℤ) : List ℤ → List ℤ
  | [] => [x]
  | y :: ys => if x ≤ y then x :: y :: ys else y :: insertOrd x ys

def sortOrd : List ℤ → List ℤ
  | [] => []
  | x :: xs => insertOrd x (sortOrd xs)

/-- The distinct day keys of the horizon, in ascending order (the key
sequence of the `BTreeMap`). -/
def dayKeys (si : SidecarInput) : List ℤ :=
  sortOrd (((List.range (horizonT si)).map
    (fun t => effDayKey si.config (slotAt si t))).dedup)

/-- The slot indices accounted to a given day, ascending. -/
def dayIndices (si : SidecarInput) (d : ℤ) : List ℕ :=
  (List.range (horizonT si)).filter (fun t => effDayKey si.config (slotAt si t) == d)

/-- The remaining daily requirement of the i-th day group. -/
def dayReq (si : SidecarInput) (i : ℕ) : ℚ :=
  if i = 0 then
    max (si.config.water_heating_min_kwh - si.config.water_heated_today_kwh) 0
  else si.config.water_heating_min_kwh

/-- Daily requirement constraint: day_sum * power * dur >= req. -/
def dailyC (si : SidecarInput) (d : ℤ) (req : ℚ) : LinCon :=
  ⟨exprSmul (si.config.water_heating_power_kw * slotDurH si)
     (exprSumVars ((dayIndices si d).map Var.waterHeat)),
   CmpRel.ge, exprConst req⟩

def dailyBlock (si : SidecarInput) : List LinCon :=
  if waterEnabled si.config ∧ 0 < si.config.water_heating_min_kwh then
    (dayKeys si).enum.filterMap (fun p =>
      let req := dayReq si p.1
      if 0 < req then some (dailyC si p.2 req) else none)
  else []

/-- `(gap_hours / dur).max(1.0) as usize` — note the truncating cast. -/
def gapSlots1 (si : SidecarInput) : ℕ :=
  floorUsize (max (si.config.water_heating_max_gap_hours / slotDurH si) 1)

/-- `(gap_hours * 1.5 / dur).max(1.0) as usize`. -/
def gapSlots2 (si : SidecarInput) : ℕ :=
  floorUsize (max (si.config.water_heating_max_gap_hours * (3 / 2) / slotDurH si) 1)

/-- Comfort-gap window constraint: sum of heats over [s, s+g) plus the
gap-violation slack of the window start is at least one. -/
def gapC (vfam : ℕ → Var) (s g : ℕ) : LinCon :=
  ⟨exprAdd (exprSumVars ((List.range' s g).map Var.waterHeat)) (exprVar (vfam s)),
   CmpRel.ge, exprConst 1⟩

def gapTier (si : SidecarInput) (vfam : ℕ → Var) (g : ℕ) : List LinCon :=
  if g ≤ horizonT si then
    (List.range (horizonT si - g + 1)).map (fun s => gapC vfam s g)
  else []

def gapBlock (si : SidecarInput) : List LinCon :=
  if waterEnabled si.config ∧ 0 < si.config.water_heating_max_gap_hours ∧ horizonT si ≠ 0 then
    gapTier si Var.gapViolation (gapSlots1 si) ++ gapTier si Var.gapViolation2 (gapSlots2 si)
  else []

/-- `(spacing_hours / dur).ceil() as usize`. -/
def spacingSlots (si : SidecarInput) : ℕ :=
  ceilUsize (si.config.water_min_spacing_hours / slotDurH si)

/-- Spacing constraint at slot t: sum of heats over the preceding window
plus water_start[t] * S is at most S. -/
def spacingC (si : SidecarInput) (t : ℕ) : LinCon :=
  let s := spacingSlots si
  ⟨exprAdd (exprSumVars ((List.range' (t - s) (t - (t - s))).map Var.waterHeat))
     (exprSmul (s : ℚ) (exprVar (Var.waterStart t))),
   CmpRel.le, exprConst (s : ℚ)⟩

def spacingBlock (si : SidecarInput) : List LinCon :=
  if waterEnabled si.config ∧ 0 < si.config.water_min_spacing_hours then
    (List.range' 1 (horizonT si - 1)).map (fun t => spacingC si t)
  else []

def initialSocC (si : SidecarInput) : LinCon :=
  ⟨exprVar (Var.soc 0), CmpRel.eq, exprConst si.input.initial_soc_kwh⟩

def terminalSoftMinC (si : SidecarInput) : LinCon :=
  ⟨exprVar (Var.soc (horizonT si)), CmpRel.ge,
   exprSub (exprConst (min_soc_kwh si.config)) (exprVar (Var.socViolation (horizonT si)))⟩

def targetBlock (si : SidecarInput) : List LinCon :=
  match si.config.target_soc_kwh with
  | some tg =>
    [⟨exprVar (Var.soc (horizonT si)), CmpRel.ge,
      exprSub (exprConst tg) (exprVar Var.targetUnder)⟩,
     ⟨exprVar (Var.soc (horizonT si)), CmpRel.le,
      exprAdd (exprConst tg) (exprVar Var.targetOver)⟩]
  | none => []

/-- The full constraint list of the model, in source emission order. -/
def modelConstraints (si : SidecarInput) : List LinCon :=
  initialSocC si :: (List.range (horizonT si)).flatMap (perSlotConstraints si)
  ++ [terminalSoftMinC si] ++ targetBlock si ++ dailyBlock si
  ++ gapBlock si ++ spacingBlock si

/-- The per-slot objective terms, in source order. -/
def objSlotTerms (si : SidecarInput) (t : ℕ) : List (ℚ × Var) :=
  let slot := slotAt si t
  let cfg := si.config
  [(slot.import_price_sek_kwh, Var.gridImport t),
   (-(slot.export_price_sek_kwh - cfg.export_threshold_sek_per_kwh), Var.gridExport t),
   (cfg.wear_cost_sek_per_kwh, Var.charge t),
   (cfg.wear_cost_sek_per_kwh, Var.discharge t),
   (curtailment_penalty, Var.curtailment t),
   (load_shedding_penalty, Var.loadShedding t),
   (import_breach_penalty, Var.importBreach t)]
  ++ (if 0 < cfg.ramping_cost_sek_per_kw then
        [(cfg.ramping_cost_sek_per_kw / slotDurH si, Var.rampUp t),
         (cfg.ramping_cost_sek_per_kw / slotDurH si, Var.rampDown t)]
      else [])
  ++ (if waterEnabled cfg ∧ 0 < cfg.water_block_start_penalty_sek then
        [(cfg.water_block_start_penalty_sek, Var.waterStart t)]
      else [])

/-- The minimised objective expression, term for term as in the source. -/
def objective (si : SidecarInput) : LinExpr :=
  ⟨(List.range (horizonT si)).flatMap (objSlotTerms si)
   ++ (List.range (horizonT si + 1)).map (fun t => (min_soc_penalty, Var.socViolation t))
   ++ [(-si.config.terminal_value_sek_kwh, Var.soc (horizonT si))]
   ++ (match si.config.target_soc_kwh with
       | some tg =>
         (si.config.target_soc_penalty_sek, Var.targetUnder) ::
           (if 0 < tg then [(si.config.target_soc_penalty_sek, Var.targetOver)] else [])
       | none => [])
   ++ (if waterEnabled si.config ∧ 0 < si.config.water_heating_max_gap_hours
         ∧ 0 < si.config.water_comfort_penalty_sek then
         (List.range (horizonT si)).map
           (fun t => (si.config.water_comfort_penalty_sek, Var.gapViolation t))
         ++ (List.range (horizonT si)).map
           (fun t => (si.config.water_comfort_penalty_sek, Var.gapViolation2 t))
       else []),
   0⟩

/-- The variable bounds declared at variable-creation time. -/
def BoundsOK (si : SidecarInput) (σ : Var → ℚ) : Prop :=
  (∀ t, t < horizonT si →
    0 ≤ σ (Var.gridImport t) ∧ 0 ≤ σ (Var.gridExport t) ∧
    0 ≤ σ (Var.charge t) ∧ σ (Var.charge t) ≤ max_charge_kwh si ∧
    0 ≤ σ (Var.discharge t) ∧ σ (Var.discharge t) ≤ max_discharge_kwh si ∧
    0 ≤ σ (Var.curtailment t) ∧ 0 ≤ σ (Var.loadShedding t) ∧
    0 ≤ σ (Var.importBreach t) ∧ 0 ≤ σ (Var.rampUp t) ∧ 0 ≤ σ (Var.rampDown t) ∧
    (waterEnabled si.config →
      (σ (Var.waterHeat t) = 0 ∨ σ (Var.waterHeat t) = 1) ∧
      (σ (Var.waterStart t) = 0 ∨ σ (Var.waterStart t) = 1) ∧
      (0 < si.config.water_heating_max_gap_hours →
        0 ≤ σ (Var.gapViolation t) ∧ 0 ≤ σ (Var.gapViolation2 t)))) ∧
  (∀ t, t ≤ horizonT si →
    0 ≤ σ (Var.soc t) ∧ σ (Var.soc t) ≤ si.config.capacity_kwh ∧
    0 ≤ σ (Var.socViolation t)) ∧
  0 ≤ σ Var.targetUnder ∧ 0 ≤ σ Var.targetOver

/-- A variable assignment feasible for the assembled model: it respects
every declared variable bound and every emitted constraint. -/
def Feasible (si : SidecarInput) (σ : Var → ℚ) : Prop :=
  BoundsOK si σ ∧ ∀ c ∈ modelConstraints si, satisfies σ c

/-! ## Result extraction -/

def extractSlots (si : SidecarInput) (σ : Var → ℚ) : List KeplerResultSlot :=
  (List.range (horizonT si)).map (fun t =>
    let slot := slotAt si t
    ⟨slot.start_time, slot.end_time,
     σ (Var.charge t), σ (Var.discharge t),
     σ (Var.gridImport t), σ (Var.gridExport t),
     σ (Var.soc (t + 1)),
     σ (Var.gridImport t) * slot.import_price_sek_kwh
       - σ (Var.gridExport t) * slot.export_price_sek_kwh,
     slot.import_price_sek_kwh, slot.export_price_sek_kwh,
     (if waterEnabled si.config then
        (if 1 / 2 < σ (Var.waterHeat t) then si.config.water_heating_power_kw else 0)
      else 0),
     0⟩)

/-- `solve_kepler`, with the external MILP solver as an oracle taking the
assembled objective and constraints.  Solve time is not modelled (0). -/
def solve_kepler (solver : LinExpr → List LinCon → Except String (Var → ℚ))
    (si : SidecarInput) : Except String KeplerResult :=
  if horizonT si = 0 then
    Except.ok ⟨[], 0, true, "No slots", 0⟩
  else
    match solver (objective si) (modelConstraints si) with
    | Except.error e => Except.error ("Solver failed: " ++ e ++ ". Is optimal: false")
    | Except.ok σ => Except.ok
        ⟨extractSlots si σ, evalExpr σ (objective si), true, "Optimal", 0⟩

/-! ## Evaluation and coefficient lemmas -/

theorem evalTerms_append (σ : Var → ℚ) (l1 l2 : List (ℚ × Var)) :
    evalTerms σ (l1 ++ l2) = evalTerms σ l1 + evalTerms σ l2 := by
  induction l1 with
  | nil => simp [evalTerms]
  | cons p rest ih => simp [evalTerms, ih]; ring

@[simp] theorem evalExpr_add (σ : Var → ℚ) (a b : LinExpr) :
    evalExpr σ (exprAdd a b) = evalExpr σ a + evalExpr σ b := by
  simp [evalExpr, exprAdd, evalTerms_append]; ring

theorem evalTerms_map_smul (σ : Var → ℚ) (q : ℚ) (l : List (ℚ × Var)) :
    evalTerms σ (l.map (fun p => (q * p.1, p.2))) = q * evalTerms σ l := by
  induction l with
  | nil => simp [evalTerms]
  | cons p rest ih => simp [evalTerms, ih]; ring

@[simp] theorem evalExpr_smul (σ : Var → ℚ) (q : ℚ) (a : LinExpr) :
    evalExpr σ (exprSmul q a) = q * evalExpr σ a := by
  simp [evalExpr, exprSmul, evalTerms_map_smul]; ring

@[simp] theorem evalExpr_sub (σ : Var → ℚ) (a b : LinExpr) :
    evalExpr σ (exprSub a b) = evalExpr σ a - evalExpr σ b := by
  simp [exprSub]; ring

@[simp] theorem evalExpr_var (σ : Var → ℚ) (v : Var) :
    evalExpr σ (exprVar v) = σ v := by
  simp [evalExpr, exprVar, evalTerms]

@[simp] theorem evalExpr_const (σ : Var → ℚ) (q : ℚ) :
    evalExpr σ (exprConst q) = q := by
  simp [evalExpr, exprConst, evalTerms]

@[simp] theorem evalExpr_sumVars (σ : Var → ℚ) (vs : List Var) :
    evalExpr σ (exprSumVars vs) = (vs.map σ).sum := by
  induction vs with
  | nil => simp [evalExpr, exprSumVars, evalTerms]
  | cons v rest ih =>
    simp [evalExpr, exprSumVars, evalTerms] at ih ⊢
    simp [ih]

@[simp] theorem satisfies_eq (σ : Var → ℚ) (l r : LinExpr) :
    satisfies σ ⟨l, CmpRel.eq, r⟩ ↔ evalExpr σ l = evalExpr σ r := Iff.rfl

@[simp] theorem satisfies_le (σ : Var → ℚ) (l r : LinExpr) :
    satisfies σ ⟨l, CmpRel.le, r⟩ ↔ evalExpr σ l ≤ evalExpr σ r := Iff.rfl

@[simp] theorem satisfies_ge (σ : Var → ℚ) (l r : LinExpr) :
    satisfies σ ⟨l, CmpRel.ge, r⟩ ↔ evalExpr σ l ≥ evalExpr σ r := Iff.rfl

theorem coeffTerms_append (v : Var) (l1 l2 : List (ℚ × Var)) :
    coeffTerms v (l1 ++ l2) = coeffTerms v l1 + coeffTerms v l2 := by
  induction l1 with
  | nil => simp [coeffTerms]
  | cons p rest ih => simp [coeffTerms, ih]; ring

theorem coeffTerms_eq_zero (v : Var) (l : List (ℚ × Var)) (h : ∀ p ∈ l, p.2 ≠ v) :
    coeffTerms v l = 0 := by
  induction l with
  | nil => rfl
  | cons p rest ih =>
    have hp := h p (List.mem_cons_self p rest)
    simp [coeffTerms, hp, ih (fun q hq => h q (List.mem_cons_of_mem p hq))]

instance decBallLT (n : ℕ) (P : ℕ → Prop) [DecidablePred P] :
    Decidable (∀ t, t < n → P t) :=
  decidable_of_iff (∀ t, 0 ≤ t → t < n → P t)
    ⟨fun h t ht => h t (Nat.zero_le t) ht, fun h t _ ht => h t ht⟩

instance decBallLE (n : ℕ) (P : ℕ → Prop) [DecidablePred P] :
    Decidable (∀ t, t ≤ n → P t) :=
  decidable_of_iff (∀ t, t < n + 1 → P t)
    ⟨fun h t ht => h t (Nat.lt_succ_of_le ht), fun h t ht => h t (Nat.lt_succ_iff.1 ht)⟩

/-! ## Shared concrete instances -/

/-- A configuration with everything disabled except a battery whose hard
maximum state of charge is half its capacity. -/
def cfgA : KeplerConfig :=
  ⟨10, 0, 50, 10, 10, 1, 1, 0, none, none, none, 0, 0, 0, 0, none,
   0, 0, 0, 0, 0, 0, 0, none, 0, 0, false⟩

/-- One slot of one hour, zero load and PV, initial SoC 5 kWh. -/
def siA : SidecarInput := ⟨⟨[⟨0, 3600, 0, 0, 0, 0⟩], 5⟩, cfgA⟩

/-- An assignment charging 1 kWh from the grid in the single slot. -/
def sigA : Var → ℚ := fun v =>
  match v with
  | Var.soc 0 => 5
  | Var.soc 1 => 6
  | Var.charge 0 => 1
  | Var.gridImport 0 => 1
  | _ => 0

/-! ## Claim theorems -/

/-- C1: for every slot index t in [0, T), the model contains the battery
recurrence constraint soc[t+1] = soc[t] + charge[t]*charge_efficiency
- discharge[t]/eff_d, where eff_d is the configured discharge efficiency
when positive and 1 when configured as 0. -/
theorem C1_battery_recurrence (si : SidecarInput) (t : ℕ) (ht : t < horizonT si) :
    batteryDynC si t ∈ modelConstraints si ∧
    ∀ σ : Var → ℚ, satisfies σ (batteryDynC si t) ↔
      σ (Var.soc (t + 1)) =
        σ (Var.soc t) + σ (Var.charge t) * si.config.charge_efficiency
          - σ (Var.discharge t) /
            (if 0 < si.config.discharge_efficiency then si.config.discharge_efficiency else 1) := by
  constructor
  · have h1 : batteryDynC si t ∈ perSlotConstraints si t := by
      unfold perSlotConstraints; simp
    have h2 : batteryDynC si t ∈ (List.range (horizonT si)).flatMap (perSlotConstraints si) :=
      List.mem_flatMap.2 ⟨t, List.mem_range.2 ht, h1⟩
    unfold modelConstraints
    exact List.mem_cons_of_mem _
      (List.mem_append_left _ (List.mem_append_left _ (List.mem_append_left _
        (List.mem_append_left _ (List.mem_append_left _ h2)))))
  · intro σ
    unfold batteryDynC eff_d
    rw [satisfies_eq]
    simp [div_eq_mul_inv]
    constructor <;> intro h <;> linarith

/-- C7: with zero input slots, solve_kepler succeeds without consulting
the solver, returning an empty slot list, zero total cost, and
is_optimal = true with status "No slots". -/
theorem C7_zero_slots (solver : LinExpr → List LinCon → Except String (Var → ℚ))
    (si : SidecarInput) (h : si.input.slots = []) :
    solve_kepler solver si = Except.ok ⟨[], 0, true, "No slots", 0⟩ := by
  unfold solve_kepler horizonT
  rw [h]
  simp

/-- Witness for C7 at a concrete empty input, with a solver oracle that
always fails (showing the solver is not consulted). -/
theorem C7_zero_slots_witness :
    (⟨⟨[], 0⟩, cfgA⟩ : SidecarInput).input.slots = [] ∧
    solve_kepler (fun _ _ => Except.error "unreachable") ⟨⟨[], 0⟩, cfgA⟩ =
      Except.ok ⟨[], 0, true, "No slots", 0⟩ :=
  ⟨rfl, C7_zero_slots (fun _ _ => Except.error "unreachable") ⟨⟨[], 0⟩, cfgA⟩ rfl⟩

/-- C9: every result solve_kepler returns has is_optimal = true and a
status of "Optimal" (or "No slots" for an empty horizon); when the solver
reports a non-success outcome on a nonempty horizon, solve_kepler
propagates an error instead of returning a result. -/
theorem C9_optimal_only (solver : LinExpr → List LinCon → Except String (Var → ℚ))
    (si : SidecarInput) :
    (∀ r, solve_kepler solver si = Except.ok r →
      r.is_optimal = true ∧ (r.status_msg = "Optimal" ∨ r.status_msg = "No slots")) ∧
    (∀ e, solver (objective si) (modelConstraints si) = Except.error e →
      horizonT si ≠ 0 →
      solve_kepler solver si =
        Except.error ("Solver failed: " ++ e ++ ". Is optimal: false")) := by
  constructor
  · intro r hr
    unfold solve_kepler at hr
    by_cases hT : horizonT si = 0
    · simp [hT] at hr
      rw [← hr]
      simp
    · simp [hT] at hr
      cases hsol : solver (objective si) (modelConstraints si) with
      | error e => rw [hsol] at hr; simp at hr
      | ok σ =>
        rw [hsol] at hr
        simp at hr
        rw [← hr]
        simp
  · intro e he hT
    unfold solve_kepler
    simp [hT, he]

/-- Witness for C9 at a concrete input and failing solver oracle. -/
theorem C9_optimal_only_witness :
    horizonT siA ≠ 0 ∧
    solve_kepler (fun _ _ => Except.error "boom") siA =
      Except.error "Solver failed: boom. Is optimal: false" := by
  refine ⟨by decide, ?_⟩
  have h := (C9_optimal_only (fun _ _ => Except.error "boom") siA).2 "boom" rfl (by decide)
  exact h

/-- C10 helper: the per-slot objective terms never mention a state of
charge variable. -/
theorem coeffTerms_objSlot_soc (si : SidecarInput) (t n : ℕ) :
    coeffTerms (Var.soc n) (objSlotTerms si t) = 0 := by
  apply coeffTerms_eq_zero
  intro p hp
  unfold objSlotTerms at hp
  simp at hp
  rcases hp with h | h | h | h | h | h | h | ⟨_, h | h⟩ | ⟨_, h⟩ <;> simp [h]

theorem coeffTerms_flatMap_objSlot_soc (si : SidecarInput) (n : ℕ) (ts : List ℕ) :
    coeffTerms (Var.soc n) (ts.flatMap (objSlotTerms si)) = 0 := by
  induction ts with
  | nil => rfl
  | cons t rest ih =>
    rw [List.flatMap_cons, coeffTerms_append, coeffTerms_objSlot_soc, ih]
    ring

/-- C10: every result slot, the final one included, carries
terminal_credit_sek = 0; the terminal state-of-charge credit appears in
the objective as coefficient -terminal_value_sek_kwh on soc[T] (and hence
in total_cost_sek only). -/
theorem C10_terminal_credit (si : SidecarInput) (σ : Var → ℚ) (t : ℕ)
    (ht : t < horizonT si) :
    ((extractSlots si σ)[t]?).map (fun s => s.terminal_credit_sek) = some 0 ∧
    coeffOf (objective si) (Var.soc (horizonT si)) = -si.config.terminal_value_sek_kwh := by
  constructor
  · unfold extractSlots
    rw [List.getElem?_map, List.getElem?_range ht]
    simp
  · unfold objective coeffOf
    simp only [coeffTerms_append, coeffTerms_flatMap_objSlot_soc]
    have hviol : coeffTerms (Var.soc (horizonT si))
        ((List.range (horizonT si + 1)).map (fun t => (min_soc_penalty, Var.socViolation t))) = 0 := by
      apply coeffTerms_eq_zero
      intro p hp
      simp at hp
      obtain ⟨a, _, hpa⟩ := hp
      simp [← hpa]
    have hterm : coeffTerms (Var.soc (horizonT si))
        [(-si.config.terminal_value_sek_kwh, Var.soc (horizonT si))] =
        -si.config.terminal_value_sek_kwh := by
      simp [coeffTerms]
    have htarget : coeffTerms (Var.soc (horizonT si))
        (match si.config.target_soc_kwh with
         | some tg =>
           (si.config.target_soc_penalty_sek, Var.targetUnder) ::
             (if 0 < tg then [(si.config.target_soc_penalty_sek, Var.targetOver)] else [])
         | none => []) = 0 := by
      apply coeffTerms_eq_zero
      intro p hp
      cases hcase : si.config.target_soc_kwh with
      | none => rw [hcase] at hp; simp at hp
      | some tg =>
        rw [hcase, List.mem_cons] at hp
        rcases hp with hp | hp
        · simp [hp]
        · by_cases h0 : 0 < tg
          · rw [if_pos h0] at hp; simp at hp; simp [hp]
          · rw [if_neg h0] at hp; simp at hp
    have hgap : coeffTerms (Var.soc (horizonT si))
        (if waterEnabled si.config ∧ 0 < si.config.water_heating_max_gap_hours
           ∧ 0 < si.config.water_comfort_penalty_sek then
           (List.range (horizonT si)).map
             (fun t => (si.config.water_comfort_penalty_sek, Var.gapViolation t))
           ++ (List.range (horizonT si)).map
             (fun t => (si.config.water_comfort_penalty_sek, Var.gapViolation2 t))
         else []) = 0 := by
      apply coeffTerms_eq_zero
      intro p hp
      by_cases hcond : waterEnabled si.config ∧ 0 < si.config.water_heating_max_gap_hours
          ∧ 0 < si.config.water_comfort_penalty_sek
      · rw [if_pos hcond] at hp
        rcases List.mem_append.1 hp with hp2 | hp2 <;>
          (simp at hp2; obtain ⟨a, _, hpa⟩ := hp2; simp [← hpa])
      · rw [if_neg hcond] at hp
        simp at hp
    rw [hviol, hterm, htarget, hgap]
    ring

/-- Any constraint emitted by the per-slot loop is in the model. -/
theorem mem_model_of_perSlot (si : SidecarInput) (t : ℕ) (ht : t < horizonT si)
    (c : LinCon) (hc : c ∈ perSlotConstraints si t) : c ∈ modelConstraints si := by
  have h2 : c ∈ (List.range (horizonT si)).flatMap (perSlotConstraints si) :=
    List.mem_flatMap.2 ⟨t, List.mem_range.2 ht, hc⟩
  unfold modelConstraints
  exact List.mem_cons_of_mem _
    (List.mem_append_left _ (List.mem_append_left _ (List.mem_append_left _
      (List.mem_append_left _ (List.mem_append_left _ h2)))))

/-- Witness for C1 at a concrete one-slot input. -/
theorem C1_battery_recurrence_witness :
    0 < horizonT siA ∧ batteryDynC siA 0 ∈ modelConstraints siA :=
  ⟨by decide, (C1_battery_recurrence siA 0 (by decide)).1⟩

/-- Witness for C10 at a concrete one-slot input. -/
theorem C10_terminal_credit_witness :
    0 < horizonT siA ∧
    ((extractSlots siA sigA)[0]?).map (fun s => s.terminal_credit_sek) = some 0 :=
  ⟨by decide, (C10_terminal_credit siA sigA 0 (by decide)).1⟩

/-- C3 counterexample: a feasible assignment of the assembled model whose
terminal state of charge soc[T] strictly exceeds the configured maximum —
the hard maximum constraint is not applied at the terminal boundary. -/
theorem C3_counterexample :
    Feasible siA sigA ∧ max_soc_kwh siA.config < sigA (Var.soc (horizonT siA)) := by
  refine ⟨⟨?_, ?_⟩, ?_⟩
  · unfold BoundsOK
    with_unfolding_all decide
  · with_unfolding_all decide
  · with_unfolding_all decide

/-- C3 (amended): every feasible assignment keeps soc[t] at or below the
configured maximum for every boundary index t < T; the terminal boundary
soc[T] is bounded only by the battery capacity. -/
theorem C3_amended_hard_max (si : SidecarInput) (σ : Var → ℚ) (hf : Feasible si σ)
    (t : ℕ) (ht : t < horizonT si) :
    σ (Var.soc t) ≤ max_soc_kwh si.config ∧
    σ (Var.soc (horizonT si)) ≤ si.config.capacity_kwh := by
  constructor
  · have hm : hardMaxC si t ∈ modelConstraints si := by
      apply mem_model_of_perSlot si t ht
      unfold perSlotConstraints; simp
    have hs := hf.2 _ hm
    unfold hardMaxC at hs
    rw [satisfies_le] at hs
    simpa using hs
  · exact (hf.1.2.1 (horizonT si) le_rfl).2.1

/-- Witness for the amended C3 at the concrete feasible assignment. -/
theorem C3_amended_hard_max_witness :
    Feasible siA sigA ∧ 0 < horizonT siA ∧
    sigA (Var.soc 0) ≤ max_soc_kwh siA.config := by
  have hf : Feasible siA sigA := by
    refine ⟨?_, ?_⟩
    · unfold BoundsOK
      with_unfolding_all decide
    · with_unfolding_all decide
  exact ⟨hf, by decide, (C3_amended_hard_max siA sigA hf 0 (by decide)).1⟩

/-- A one-slot input with zero prices but a terminal SoC value credit. -/
def cfgB : KeplerConfig :=
  ⟨10, 0, 100, 10, 10, 1, 1, 0, none, none, none, 0, 1, 0, 0, none,
   0, 0, 0, 0, 0, 0, 0, none, 0, 0, false⟩

def siB : SidecarInput := ⟨⟨[⟨0, 3600, 0, 0, 0, 0⟩], 5⟩, cfgB⟩

/-- An assignment holding 5 kWh in the battery across the slot. -/
def sigB : Var → ℚ := fun v =>
  match v with
  | Var.soc 0 => 5
  | Var.soc 1 => 5
  | _ => 0

/-- C6: each result slot's cost_sek is grid import times import price
minus grid export times the slot's actual export price, while
total_cost_sek is the evaluated objective (terminal credit and penalties
included); at the concrete instance siB the total therefore differs from
the sum of the per-slot costs. -/
theorem C6_cost_accounting (solver : LinExpr → List LinCon → Except String (Var → ℚ))
    (si : SidecarInput) (σ : Var → ℚ) (hT : horizonT si ≠ 0)
    (hs : solver (objective si) (modelConstraints si) = Except.ok σ) :
    (∃ r, solve_kepler solver si = Except.ok r ∧
      r.total_cost_sek = evalExpr σ (objective si) ∧
      ∀ t, t < horizonT si →
        (r.slots[t]?).map (fun s => s.cost_sek) =
          some (σ (Var.gridImport t) * (slotAt si t).import_price_sek_kwh
            - σ (Var.gridExport t) * (slotAt si t).export_price_sek_kwh)) ∧
    evalExpr sigB (objective siB) ≠
      ((extractSlots siB sigB).map (fun s => s.cost_sek)).sum := by
  constructor
  · refine ⟨⟨extractSlots si σ, evalExpr σ (objective si), true, "Optimal", 0⟩, ?_, rfl, ?_⟩
    · unfold solve_kepler
      simp [hT, hs]
    · intro t ht
      unfold extractSlots
      rw [List.getElem?_map, List.getElem?_range ht]
      simp
  · with_unfolding_all decide

/-- Witness for C6 at the concrete instance siB with a successful solver
oracle. -/
theorem C6_cost_accounting_witness :
    horizonT siB ≠ 0 ∧
    (∃ r, solve_kepler (fun _ _ => Except.ok sigB) siB = Except.ok r ∧
      r.total_cost_sek = evalExpr sigB (objective siB) ∧
      ∀ t, t < horizonT siB →
        (r.slots[t]?).map (fun s => s.cost_sek) =
          some (sigB (Var.gridImport t) * (slotAt siB t).import_price_sek_kwh
            - sigB (Var.gridExport t) * (slotAt siB t).export_price_sek_kwh)) :=
  ⟨by decide, (C6_cost_accounting (fun _ _ => Except.ok sigB) siB sigB (by decide) rfl).1⟩

/-- A two-slot input with non-uniform slot durations (1 h and 2 h). -/
def siC : SidecarInput :=
  ⟨⟨[⟨0, 3600, 0, 0, 0, 0⟩, ⟨3600, 10800, 0, 0, 0, 0⟩], 0⟩, cfgA⟩

/-- The all-zero assignment. -/
def sigZero : Var → ℚ := fun _ => 0

/-- C8 counterexample: an input whose two slots have different durations,
on which solve_kepler (with a successful solver oracle) still returns a
result — no error is surfaced for non-uniform slot durations. -/
theorem C8_counterexample :
    ((slotAt siC 0).end_time - (slotAt siC 0).start_time ≠
      (slotAt siC 1).end_time - (slotAt siC 1).start_time) ∧
    ∃ r, solve_kepler (fun _ _ => Except.ok sigZero) siC = Except.ok r := by
  refine ⟨by decide,
    ⟨⟨extractSlots siC sigZero, evalExpr sigZero (objective siC), true, "Optimal", 0⟩, ?_⟩⟩
  have hT : ¬ horizonT siC = 0 := by decide
  unfold solve_kepler
  rw [if_neg hT]

/-- C8 (amended): solve_kepler performs no slot-duration validation — it
derives the slot duration from the first slot alone, and on any nonempty
horizon its outcome is decided by the solver oracle alone: oracle success
yields a result and oracle failure yields the propagated error,
regardless of slot-duration uniformity or degeneracy. -/
theorem C8_amended_no_duration_check
    (solver : LinExpr → List LinCon → Except String (Var → ℚ)) (si : SidecarInput)
    (hT : horizonT si ≠ 0) :
    (∀ σ, solver (objective si) (modelConstraints si) = Except.ok σ →
      solve_kepler solver si =
        Except.ok ⟨extractSlots si σ, evalExpr σ (objective si), true, "Optimal", 0⟩) ∧
    (∀ e, solver (objective si) (modelConstraints si) = Except.error e →
      solve_kepler solver si =
        Except.error ("Solver failed: " ++ e ++ ". Is optimal: false")) := by
  constructor <;> intro x hx <;> (unfold solve_kepler; rw [if_neg hT, hx])

/-- Witness for the amended C8 at the concrete non-uniform-duration input. -/
theorem C8_amended_no_duration_check_witness :
    horizonT siC ≠ 0 ∧
    solve_kepler (fun _ _ => Except.ok sigZero) siC =
      Except.ok ⟨extractSlots siC sigZero, evalExpr sigZero (objective siC),
        true, "Optimal", 0⟩ :=
  ⟨by decide,
   (C8_amended_no_duration_check (fun _ _ => Except.ok sigZero) siC (by decide)).1 sigZero rfl⟩

/-- C2: with water heating enabled and a positive minimum spacing, for
every t in [1, T) the model contains the spacing constraint
sum of heaterActive over [max(0, t-S), t) plus heaterStart[t]*S at most S,
with S = ceil(water_min_spacing_hours / slot duration); and every spacing
constraint in the model arises from some t in [1, T) — none is emitted
for t = 0. -/
theorem C2_spacing (si : SidecarInput)
    (hw : waterEnabled si.config) (hs : 0 < si.config.water_min_spacing_hours) :
    spacingSlots si = ⌈si.config.water_min_spacing_hours / slotDurH si⌉₊ ∧
    (∀ t, 1 ≤ t → t < horizonT si →
      spacingC si t ∈ modelConstraints si ∧
      ∀ σ : Var → ℚ, satisfies σ (spacingC si t) ↔
        (((List.range' (t - spacingSlots si) (t - (t - spacingSlots si))).map
            (fun i => σ (Var.waterHeat i))).sum
          + σ (Var.waterStart t) * (spacingSlots si : ℚ) ≤ (spacingSlots si : ℚ))) ∧
    (∀ c ∈ spacingBlock si, ∃ t, 1 ≤ t ∧ t < horizonT si ∧ c = spacingC si t) := by
  refine ⟨by rw [spacingSlots, ceilUsize_eq], ?_, ?_⟩
  · intro t ht1 htT
    constructor
    · have hmem : spacingC si t ∈ spacingBlock si := by
        unfold spacingBlock
        rw [if_pos ⟨hw, hs⟩]
        exact List.mem_map.2 ⟨t, List.mem_range'_1.2 ⟨ht1, by omega⟩, rfl⟩
      unfold modelConstraints
      exact List.mem_cons_of_mem _ (List.mem_append_right _ hmem)
    · intro σ
      unfold spacingC
      rw [satisfies_le]
      simp [List.map_map, Function.comp_def]
      constructor <;> intro h <;> linarith
  · intro c hc
    unfold spacingBlock at hc
    rw [if_pos ⟨hw, hs⟩] at hc
    obtain ⟨t, ht, rfl⟩ := List.mem_map.1 hc
    rw [List.mem_range'_1] at ht
    exact ⟨t, ht.1, by omega, rfl⟩

/-- A two-slot input with the water heater enabled and one hour minimum
spacing. -/
def cfgD : KeplerConfig :=
  ⟨10, 0, 100, 10, 10, 1, 1, 0, none, none, none, 0, 0, 0, 0, none,
   1, 0, 0, 0, 0, 1, 0, none, 0, 0, false⟩

def siD : SidecarInput :=
  ⟨⟨[⟨0, 3600, 0, 0, 0, 0⟩, ⟨3600, 7200, 0, 0, 0, 0⟩], 0⟩, cfgD⟩

/-- Witness for C2 at the concrete input siD. -/
theorem C2_spacing_witness :
    waterEnabled siD.config ∧ 0 < siD.config.water_min_spacing_hours ∧
    spacingC siD 1 ∈ modelConstraints siD := by
  have hw : waterEnabled siD.config := by norm_num [waterEnabled, siD, cfgD]
  have hs : (0:ℚ) < siD.config.water_min_spacing_hours := by norm_num [siD, cfgD]
  exact ⟨hw, hs, ((C2_spacing siD hw hs).2.1 1 le_rfl (by decide)).1⟩

/-! ## Coefficient-level equivalence of constraints -/

def varsOfTerms (l : List (ℚ × Var)) : List Var := l.map Prod.snd

theorem coeffTerms_eq_zero_of_not_mem (v : Var) (l : List (ℚ × Var))
    (h : v ∉ varsOfTerms l) : coeffTerms v l = 0 := by
  apply coeffTerms_eq_zero
  intro p hp hpv
  exact h (List.mem_map.2 ⟨p, hp, hpv⟩)

/-- Two expressions are equivalent when they have the same constant and
the same coefficient on every variable (the representation `good_lp`
itself normalizes to). -/
def exprEquiv (a b : LinExpr) : Prop :=
  a.const = b.const ∧ ∀ v, coeffOf a v = coeffOf b v

instance (a b : LinExpr) : Decidable (exprEquiv a b) :=
  decidable_of_iff (a.const = b.const ∧
      ∀ v ∈ varsOfTerms a.terms ++ varsOfTerms b.terms, coeffOf a v = coeffOf b v) (by
    constructor
    · rintro ⟨h1, h2⟩
      refine ⟨h1, fun v => ?_⟩
      by_cases hv : v ∈ varsOfTerms a.terms ++ varsOfTerms b.terms
      · exact h2 v hv
      · rw [List.mem_append] at hv
        push_neg at hv
        rw [coeffOf, coeffOf, coeffTerms_eq_zero_of_not_mem _ _ hv.1,
          coeffTerms_eq_zero_of_not_mem _ _ hv.2]
    · rintro ⟨h1, h2⟩
      exact ⟨h1, fun v _ => h2 v⟩)

def conEquiv (c c2 : LinCon) : Prop :=
  c.rel = c2.rel ∧ exprEquiv c.lhs c2.lhs ∧ exprEquiv c.rhs c2.rhs

instance (c c2 : LinCon) : Decidable (conEquiv c c2) := by
  unfold conEquiv
  infer_instance

/-- The list contains a constraint with the given relation, coefficients
and constants. -/
def ContainsEquiv (cs : List LinCon) (c : LinCon) : Prop :=
  ∃ c2 ∈ cs, conEquiv c c2

instance (cs : List LinCon) (c : LinCon) : Decidable (ContainsEquiv cs c) :=
  inferInstanceAs (Decidable (∃ c2 ∈ cs, conEquiv c c2))

/-- A two-slot hourly input with the water heater enabled, a 1.5 h
maximum comfort gap and a positive comfort penalty. -/
def cfgE : KeplerConfig :=
  ⟨10, 0, 100, 10, 10, 1, 1, 0, none, none, none, 0, 0, 0, 0, none,
   1, 0, 3 / 2, 0, 1, 0, 0, none, 0, 0, false⟩

def siE : SidecarInput :=
  ⟨⟨[⟨0, 3600, 0, 0, 0, 0⟩, ⟨3600, 7200, 0, 0, 0, 0⟩], 0⟩, cfgE⟩

/-- C4 counterexample: at siE the claim's window size ceil(gapHours/dt)
is 2, but the code computes 1 (truncating cast, not ceiling), and no
constraint with the claim's coefficients — heat over the window [0, 2)
plus gapViolation[0] at least 1 — exists in the model. -/
theorem C4_counterexample :
    ⌈siE.config.water_heating_max_gap_hours / slotDurH siE⌉₊ = 2 ∧
    gapSlots1 siE = 1 ∧
    ¬ ContainsEquiv (modelConstraints siE) (gapC Var.gapViolation 0 2) := by
  have hdur : slotDurH siE = 1 := by norm_num [slotDurH, slotAt, siE]
  refine ⟨?_, ?_, ?_⟩
  · rw [hdur]
    norm_num [siE, cfgE]
    rw [Nat.ceil_eq_iff (by norm_num)]
    norm_num
  · rw [gapSlots1, floorUsize_eq, hdur]
    norm_num [siE, cfgE]
    rw [Nat.floor_eq_iff (by norm_num)]
    norm_num
  · with_unfolding_all decide

/-- C4 (amended): with water heating enabled, a positive maximum gap and
a nonempty horizon, the gap window size is the integer truncation of
max(gapHours/dt, 1) — not its ceiling — and for every window start s with
s + G at most T the model contains the window constraint; each tier is
skipped entirely when its window size exceeds the horizon; the second
tier uses 1.5 times the configured gap. -/
theorem C4_amended_gap_windows (si : SidecarInput)
    (hw : waterEnabled si.config) (hg : 0 < si.config.water_heating_max_gap_hours)
    (hT : horizonT si ≠ 0) :
    (gapSlots1 si = ⌊max (si.config.water_heating_max_gap_hours / slotDurH si) 1⌋₊ ∧
     gapSlots2 si = ⌊max (si.config.water_heating_max_gap_hours * (3 / 2) / slotDurH si) 1⌋₊) ∧
    (∀ s, s + gapSlots1 si ≤ horizonT si →
      gapC Var.gapViolation s (gapSlots1 si) ∈ modelConstraints si ∧
      ∀ σ : Var → ℚ, satisfies σ (gapC Var.gapViolation s (gapSlots1 si)) ↔
        (((List.range' s (gapSlots1 si)).map (fun i => σ (Var.waterHeat i))).sum
          + σ (Var.gapViolation s) ≥ 1)) ∧
    (∀ s, s + gapSlots2 si ≤ horizonT si →
      gapC Var.gapViolation2 s (gapSlots2 si) ∈ modelConstraints si) ∧
    (horizonT si < gapSlots1 si → gapTier si Var.gapViolation (gapSlots1 si) = []) ∧
    (horizonT si < gapSlots2 si → gapTier si Var.gapViolation2 (gapSlots2 si) = []) := by
  have hblock : gapBlock si =
      gapTier si Var.gapViolation (gapSlots1 si) ++ gapTier si Var.gapViolation2 (gapSlots2 si) := by
    unfold gapBlock
    rw [if_pos ⟨hw, hg, hT⟩]
  have hmodel : ∀ c ∈ gapBlock si, c ∈ modelConstraints si := by
    intro c hc
    unfold modelConstraints
    exact List.mem_cons_of_mem _ (List.mem_append_left _ (List.mem_append_right _ hc))
  refine ⟨⟨by rw [gapSlots1, floorUsize_eq], by rw [gapSlots2, floorUsize_eq]⟩, ?_, ?_, ?_, ?_⟩
  · intro s hs
    constructor
    · apply hmodel
      rw [hblock]
      apply List.mem_append_left
      unfold gapTier
      rw [if_pos (by omega)]
      exact List.mem_map.2 ⟨s, List.mem_range.2 (by omega), rfl⟩
    · intro σ
      unfold gapC
      rw [satisfies_ge]
      simp [List.map_map, Function.comp_def]
  · intro s hs
    apply hmodel
    rw [hblock]
    apply List.mem_append_right
    unfold gapTier
    rw [if_pos (by omega)]
    exact List.mem_map.2 ⟨s, List.mem_range.2 (by omega), rfl⟩
  · intro hlt
    unfold gapTier
    rw [if_neg (by omega)]
  · intro hlt
    unfold gapTier
    rw [if_neg (by omega)]

/-- Witness for the amended C4 at the concrete input siE. -/
theorem C4_amended_gap_windows_witness :
    waterEnabled siE.config ∧ 0 < siE.config.water_heating_max_gap_hours ∧
    horizonT siE ≠ 0 ∧ gapC Var.gapViolation 0 (gapSlots1 siE) ∈ modelConstraints siE := by
  have hw : waterEnabled siE.config := by norm_num [waterEnabled, siE, cfgE]
  have hg : (0:ℚ) < siE.config.water_heating_max_gap_hours := by norm_num [siE, cfgE]
  have h := C4_amended_gap_windows siE hw hg (by decide)
  refine ⟨hw, hg, by decide, (h.2.1 0 ?_).1⟩
  with_unfolding_all decide

/-! ## Sorting lemmas for the day-key ordering -/

theorem mem_insertOrd {y x : ℤ} {l : List ℤ} : y ∈ insertOrd x l ↔ y = x ∨ y ∈ l := by
  induction l with
  | nil => simp [insertOrd]
  | cons z zs ih =>
    unfold insertOrd
    by_cases h : x ≤ z
    · rw [if_pos h]
      simp
    · rw [if_neg h]
      simp [ih]
      tauto

theorem mem_sortOrd {y : ℤ} {l : List ℤ} : y ∈ sortOrd l ↔ y ∈ l := by
  induction l with
  | nil => simp [sortOrd]
  | cons z zs ih => simp [sortOrd, mem_insertOrd, ih]

theorem pairwise_insertOrd (x : ℤ) (l : List ℤ) (h : l.Pairwise (· ≤ ·)) :
    (insertOrd x l).Pairwise (· ≤ ·) := by
  induction l with
  | nil => simp [insertOrd]
  | cons z zs ih =>
    rw [List.pairwise_cons] at h
    unfold insertOrd
    by_cases hx : x ≤ z
    · rw [if_pos hx, List.pairwise_cons]
      constructor
      · intro y hy
        rw [List.mem_cons] at hy
        rcases hy with rfl | hy
        · exact hx
        · exact le_trans hx (h.1 y hy)
      · exact List.pairwise_cons.2 h
    · rw [if_neg hx, List.pairwise_cons]
      constructor
      · intro y hy
        rw [mem_insertOrd] at hy
        rcases hy with rfl | hy
        · exact le_of_lt (lt_of_not_le hx)
        · exact h.1 y hy
      · exact ih h.2

theorem pairwise_sortOrd (l : List ℤ) : (sortOrd l).Pairwise (· ≤ ·) := by
  induction l with
  | nil => simp [sortOrd]
  | cons z zs ih => exact pairwise_insertOrd z _ ih

theorem hourOf_nonneg (z : ℤ) : 0 ≤ hourOf z := by
  unfold hourOf
  apply Int.ediv_nonneg
  · exact Int.emod_nonneg z (by norm_num)
  · norm_num

/-- Any daily-requirement constraint is in the model. -/
theorem mem_model_of_daily (si : SidecarInput) (c : LinCon) (hc : c ∈ dailyBlock si) :
    c ∈ modelConstraints si := by
  unfold modelConstraints
  exact List.mem_cons_of_mem _ (List.mem_append_left _ (List.mem_append_left _
    (List.mem_append_right _ hc)))

/-- C5: with water heating enabled and a positive daily minimum, slots
are grouped by the calendar day of their start time shifted back one day
exactly when the start hour is before defer_up_to_hours; the groups are
processed in ascending (chronological) day order; the first group's
requirement is reduced by water_heated_today_kwh and floored at zero
while all later groups use the configured minimum; each group with a
positive remaining requirement contributes its constraint
sum(heaterActive)·ratedPower·dt at least the requirement, and every
daily constraint in the model arises from such a group (zero-requirement
groups contribute none). -/
theorem C5_daily_requirement (si : SidecarInput)
    (hw : waterEnabled si.config) (hm : 0 < si.config.water_heating_min_kwh) :
    ((dayKeys si).Pairwise (· ≤ ·) ∧
     ∀ d : ℤ, d ∈ dayKeys si ↔ ∃ t, t < horizonT si ∧ effDayKey si.config (slotAt si t) = d) ∧
    (∀ s : KeplerInputSlot, effDayKey si.config s =
      if ((hourOf s.start_time : ℤ) : ℚ) < si.config.defer_up_to_hours then
        dateOf (s.start_time - 86400)
      else dateOf s.start_time) ∧
    (dayReq si 0 = max (si.config.water_heating_min_kwh - si.config.water_heated_today_kwh) 0 ∧
     ∀ i, i ≠ 0 → dayReq si i = si.config.water_heating_min_kwh) ∧
    (∀ i d, (dayKeys si)[i]? = some d → 0 < dayReq si i →
      dailyC si d (dayReq si i) ∈ modelConstraints si ∧
      ∀ σ : Var → ℚ, satisfies σ (dailyC si d (dayReq si i)) ↔
        ((dayIndices si d).map (fun t => σ (Var.waterHeat t))).sum
          * (si.config.water_heating_power_kw * slotDurH si) ≥ dayReq si i) ∧
    (∀ c ∈ dailyBlock si, ∃ i d, (dayKeys si)[i]? = some d ∧ 0 < dayReq si i ∧
      c = dailyC si d (dayReq si i)) := by
  refine ⟨⟨pairwise_sortOrd _, ?_⟩, ?_, ⟨rfl, ?_⟩, ?_, ?_⟩
  · intro d
    rw [dayKeys, mem_sortOrd, List.mem_dedup]
    simp [List.mem_range]
  · intro s
    unfold effDayKey
    by_cases hcond : ((hourOf s.start_time : ℤ) : ℚ) < si.config.defer_up_to_hours
    · have hpos : 0 < si.config.defer_up_to_hours :=
        lt_of_le_of_lt (by exact_mod_cast hourOf_nonneg s.start_time) hcond
      rw [if_pos ⟨hpos, hcond⟩, if_pos hcond]
    · rw [if_neg (fun h => hcond h.2), if_neg hcond]
  · intro i hi
    unfold dayReq
    rw [if_neg hi]
  · intro i d hget hreq
    constructor
    · apply mem_model_of_daily
      unfold dailyBlock
      rw [if_pos ⟨hw, hm⟩]
      apply List.mem_filterMap.2
      refine ⟨(i, d), List.mk_mem_enum_iff_getElem?.2 hget, ?_⟩
      show (if 0 < dayReq si i then some (dailyC si d (dayReq si i)) else none) = _
      rw [if_pos hreq]
    · intro σ
      unfold dailyC
      rw [satisfies_ge]
      simp [List.map_map, Function.comp_def]
      constructor <;> intro h <;> linarith
  · intro c hc
    unfold dailyBlock at hc
    rw [if_pos ⟨hw, hm⟩] at hc
    obtain ⟨p, hp, hfp⟩ := List.mem_filterMap.1 hc
    obtain ⟨i, d⟩ := p
    rw [List.mk_mem_enum_iff_getElem?] at hp
    have hfp2 : (if 0 < dayReq si i then some (dailyC si d (dayReq si i)) else none) =
        some c := hfp
    by_cases hreq : 0 < dayReq si i
    · rw [if_pos hreq] at hfp2
      exact ⟨i, d, hp, hreq, (Option.some.inj hfp2).symm⟩
    · rw [if_neg hreq] at hfp2
      exact Option.noConfusion hfp2

/-- A one-slot input with water heating enabled and a 1 kWh daily
minimum requirement. -/
def cfgF : KeplerConfig :=
  ⟨10, 0, 100, 10, 10, 1, 1, 0, none, none, none, 0, 0, 0, 0, none,
   1, 1, 0, 0, 0, 0, 0, none, 0, 0, false⟩

def siF : SidecarInput := ⟨⟨[⟨0, 3600, 0, 0, 0, 0⟩], 0⟩, cfgF⟩

/-- Witness for C5 at the concrete input siF. -/
theorem C5_daily_requirement_witness :
    waterEnabled siF.config ∧ 0 < siF.config.water_heating_min_kwh ∧
    (dayKeys siF)[0]? = some 0 ∧ 0 < dayReq siF 0 ∧
    dailyC siF 0 (dayReq siF 0) ∈ modelConstraints siF := by
  have hw : waterEnabled siF.config := by norm_num [waterEnabled, siF, cfgF]
  have hm : (0:ℚ) < siF.config.water_heating_min_kwh := by norm_num [siF, cfgF]
  have hget : (dayKeys siF)[0]? = some 0 := by with_unfolding_all decide
  have hreq : 0 < dayReq siF 0 := by with_unfolding_all decide
  exact ⟨hw, hm, hget, hreq,
    ((C5_daily_requirement siF hw hm).2.2.2.1 0 0 hget hreq).1⟩
